import Mathlib

/-!
Shallow embedding of the nutriuni daily-log core:
the NutritionTracker service (daily log, date rollover, history queries)
and the FastAccessService (quick-access recency index).

Conventions of the embedding:
* JS numbers are modelled as `Int` (the claims under study concern exact
  element-wise sums, ordering and counts, not float rounding).
* The wall clock is external: every method that reads `Date` in the source
  takes the detected date string / epoch instant as an explicit argument.
* `AsyncStorage` is an association list from string keys to values; `setItem`
  overwrites the entry for an existing key in place.
* Date strings are `YYYY-MM-DD`; the source compares them by constructing
  `Date` objects, which for well-formed zero-padded date strings agrees with
  lexicographic character comparison, modelled here by `charListLt`.
* A fallible persistence call is modelled by an explicit `writeOk : Bool`
  argument: `true` means the call completed, `false` means it threw.
-/

namespace NutriUni

/-! ### A stable sort

`Array.prototype.sort` is required to be stable; a stable sort with respect
to a total preorder has a unique result, so the structurally recursive
insertion sort below is extensionally the engine's sort whenever the
comparator induces a total preorder (which both comparators used by the
source do). -/

/-- Insert `x` into `l`, placing it before the first element it may weakly
precede; on comparator ties the inserted element (the earlier one in the
original list) stays first, which is exactly stability. -/
def insertSorted (le : α → α → Bool) (x : α) : List α → List α
  | [] => [x]
  | y :: ys => if le x y then x :: y :: ys else y :: insertSorted le x ys

/-- Stable insertion sort with a boolean comparator. -/
def stableSort (le : α → α → Bool) : List α → List α
  | [] => []
  | x :: xs => insertSorted le x (stableSort le xs)

/-! ### Date-string comparison -/

/-- Lexicographic strict comparison of character lists (by code point). -/
def charListLt : List Char → List Char → Bool
  | [], [] => false
  | [], _ :: _ => true
  | _ :: _, [] => false
  | a :: as, b :: bs =>
    if a.toNat < b.toNat then true
    else if b.toNat < a.toNat then false
    else charListLt as bs

/-- Calendar comparison of `YYYY-MM-DD` date strings.  The source compares
`new Date(a + 'T00:00:00') < new Date(b + 'T00:00:00')`; for well-formed
zero-padded date strings this is the lexicographic string order. -/
def dateLt (a b : String) : Bool := charListLt a.data b.data

/-! ### Data model (`NutritionTracker` interfaces) -/

/-- `DailyNutrition` from the source: the seven aggregate fields. -/
structure DailyNutrition where
  calories : Int
  protein : Int
  carbs : Int
  fat : Int
  fiber : Int
  sugar : Int
  sodium : Int
deriving DecidableEq, Repr

/-- `TrackedItem` from the source: one logged consumption event. -/
structure TrackedItem where
  id : String
  name : String
  restaurant : String
  calories : Int
  protein : Int
  carbs : Int
  fat : Int
  fiber : Int
  sugar : Int
  sodium : Int
  serving_size : String
  timestamp : Int
deriving DecidableEq, Repr

/-- `DailyLog` from the source. -/
structure DailyLog where
  date : String
  items : List TrackedItem
  totals : DailyNutrition
deriving DecidableEq, Repr

/-- The all-zero totals record used whenever the source writes the literal
`{ calories: 0, ..., sodium: 0 }`. -/
def zeroTotals : DailyNutrition :=
  { calories := 0, protein := 0, carbs := 0, fat := 0, fiber := 0, sugar := 0, sodium := 0 }

/-- The fresh empty log the source synthesizes for a date. -/
def emptyLog (d : String) : DailyLog := { date := d, items := [], totals := zeroTotals }

/-- One step of the `reduce` inside `calculateTotals`. -/
def addNutrition (t : DailyNutrition) (i : TrackedItem) : DailyNutrition :=
  { calories := t.calories + i.calories
    protein := t.protein + i.protein
    carbs := t.carbs + i.carbs
    fat := t.fat + i.fat
    fiber := t.fiber + i.fiber
    sugar := t.sugar + i.sugar
    sodium := t.sodium + i.sodium }

/-- `calculateTotals` from the source: a left fold over the item list in list
order, starting from the zero record. -/
def calculateTotals (items : List TrackedItem) : DailyNutrition :=
  items.foldl addNutrition zeroTotals

/-! ### AsyncStorage (daily-log keyspace) -/

/-- The slice of `AsyncStorage` holding JSON-serialized `DailyLog` values,
as an association list keyed by the full storage key string. -/
def Store := List (String × DailyLog)
deriving DecidableEq

/-- `AsyncStorage.setItem`: overwrite the entry for the key if present,
otherwise append it. -/
def setKey (s : List (String × DailyLog)) (k : String) (v : DailyLog) :
    List (String × DailyLog) :=
  match s with
  | [] => [(k, v)]
  | (k2, v2) :: rest => if k2 = k then (k, v) :: rest else (k2, v2) :: setKey rest k v

/-- `AsyncStorage.getItem` (plus a successful JSON parse). -/
def getKey (s : List (String × DailyLog)) (k : String) : Option DailyLog :=
  match s with
  | [] => none
  | (k2, v2) :: rest => if k2 = k then some v2 else getKey rest k

/-- `AsyncStorage.removeItem`. -/
def removeKey (s : List (String × DailyLog)) (k : String) : List (String × DailyLog) :=
  s.filter (fun kv => kv.1 != k)

/-- The storage key `nutrition_log_<date>` for a daily log. -/
def logKey (d : String) : String := "nutrition_log_" ++ d

/-! ### Date-change listeners -/

/-- A registered date-change callback.  `cid` identifies it in the invocation
trace; `throws` tells whether invoking it raises an exception. -/
structure CB where
  cid : Nat
  throws : Bool
deriving DecidableEq, Repr

/-- Invoking one callback: it either returns normally or throws. -/
def runCB (c : CB) : Except Unit Unit :=
  if c.throws then .error () else .ok ()

/-- The `forEach` loop over `dateChangeCallbacks` in `checkForDateChange`:
each callback runs inside its own `try { callback() } catch { log }`, so the
invocation is recorded and iteration continues whether or not it threw.
Returns the list of invoked callback ids, in iteration order. -/
def forEachIsolated : List CB → List Nat
  | [] => []
  | c :: rest =>
    match runCB c with
    | .ok _ => c.cid :: forEachIsolated rest
    | .error _ => c.cid :: forEachIsolated rest

/-! ### The tracker state -/

/-- The mutable fields of `NutritionTrackerService` relevant to the claims:
`currentDate`, the cached `dailyLog`, the daily-log slice of storage, and the
registered date-change callbacks (in registration order). -/
structure TrackerState where
  currentDate : String
  dailyLog : Option DailyLog
  storage : List (String × DailyLog)
  callbacks : List CB
deriving DecidableEq, Repr

/-- `onDateChange`: pushes the callback onto the array (registration order). -/
def onDateChange (st : TrackerState) (c : CB) : TrackerState :=
  { st with callbacks := st.callbacks ++ [c] }

/-- `saveCurrentDayToHistory(dateString)`: if the in-memory log exists and has
at least one item, persist `{ ...dailyLog, date: dateString }` under the key
for `dateString`; otherwise leave storage unchanged. -/
def saveCurrentDayToHistory (st : TrackerState) (dateString : String) :
    List (String × DailyLog) :=
  match st.dailyLog with
  | some lg =>
    if lg.items.length > 0 then setKey st.storage (logKey dateString) { lg with date := dateString }
    else st.storage
  | none => st.storage

/-- `checkForDateChange`, with the detected date string passed in for
`this.getTodayString()`.  Returns the reported flag, the new state, and the
trace of invoked callback ids.  The source tests `currentDate !== newDate`
and returns `false` at the end; here the equality case is the first branch,
which is the same control flow. -/
def checkForDateChange (st : TrackerState) (newDate : String) :
    Bool × TrackerState × List Nat :=
  if st.currentDate = newDate then (false, st, [])
  else if dateLt newDate st.currentDate then
    -- backwards time change: just sync the date, move nothing to history
    (false, { st with currentDate := newDate }, [])
  else
    -- forward change: archive the old day, switch, reset cache, notify
    let storage2 := saveCurrentDayToHistory st st.currentDate
    (true,
     { st with currentDate := newDate, dailyLog := none, storage := storage2 },
     forEachIsolated st.callbacks)

/-- The storage-read-or-create tail of `loadTodaysLog`. -/
def loadOrCreate (st : TrackerState) (today : String) : DailyLog × TrackerState :=
  match getKey st.storage (logKey today) with
  | some lg => (lg, { st with dailyLog := some lg })
  | none => (emptyLog today, { st with dailyLog := some (emptyLog today) })

/-- `loadTodaysLog`, with the detected date passed in: resync `currentDate`
and drop the cache if stale, return the cache when it matches today,
otherwise read storage and fall back to a fresh empty log. -/
def loadTodaysLog (st : TrackerState) (today : String) : DailyLog × TrackerState :=
  let st1 := if st.currentDate = today then st
             else { st with currentDate := today, dailyLog := none }
  match st1.dailyLog with
  | some lg => if lg.date = today then (lg, st1) else loadOrCreate st1 today
  | none => loadOrCreate st1 today

/-! ### Menu items and item construction -/

/-- The `calories` field of catalog nutrition data, which the source tolerates
as either numeric or string-encoded. -/
inductive CaloriesField where
  | num (n : Int)
  | str (s : String)
deriving DecidableEq, Repr

/-- `typeof calories === 'string' ? parseInt(calories) || 0 : calories || 0`,
with `parseInt`-then-fallback modelled as integer parse with 0 default. -/
def parseCalories : CaloriesField → Int
  | .num n => n
  | .str s => (s.toInt?).getD 0

/-- The serving info the core reads from a catalog item. -/
structure ServingInfo where
  serving_size : String
deriving DecidableEq, Repr

/-- The nutrition block of a catalog `MenuItem`: calories, the
`nutrition_facts` map (name to amount; only `amount` is read by the core),
and serving info. -/
structure MenuNutrition where
  calories : CaloriesField
  nutrition_facts : List (String × Int)
  serving_info : ServingInfo
deriving DecidableEq, Repr

/-- A catalog `MenuItem`, restricted to what the core reads. -/
structure MenuItem where
  name : String
  nutrition : MenuNutrition
deriving DecidableEq, Repr

/-- `getNutrientAmount`: look the key up in `nutrition_facts`, defaulting a
missing entry to 0. -/
def getNutrientAmount (facts : List (String × Int)) (key : String) : Int :=
  (facts.lookup key).getD 0

/-- `extractNutritionFromMenuItem`, with the generated id and the current
instant passed in for `generateItemId()` / `Date.now()`. -/
def extractNutritionFromMenuItem (menuItem : MenuItem) (restaurant : String)
    (freshId : String) (now : Int) : TrackedItem :=
  { id := freshId
    name := menuItem.name
    restaurant := restaurant
    calories := parseCalories menuItem.nutrition.calories
    protein := getNutrientAmount menuItem.nutrition.nutrition_facts "Protein"
    carbs := getNutrientAmount menuItem.nutrition.nutrition_facts "Total Carbohydrate"
    fat := getNutrientAmount menuItem.nutrition.nutrition_facts "Total Fat"
    fiber := getNutrientAmount menuItem.nutrition.nutrition_facts "Dietary Fiber"
    sugar := getNutrientAmount menuItem.nutrition.nutrition_facts "Total Sugars"
    sodium := getNutrientAmount menuItem.nutrition.nutrition_facts "Sodium"
    serving_size := menuItem.nutrition.serving_info.serving_size
    timestamp := now }

/-- The argument record of `addCustomMeal`. -/
structure CustomMeal where
  name : String
  calories : Int
  protein : Int
  carbs : Int
  fat : Int
  fiber : Int
  sugar : Int
  sodium : Int
  serving_size : String
deriving DecidableEq, Repr

/-- The `TrackedItem` literal built inside `addCustomMeal`. -/
def customMealToTrackedItem (c : CustomMeal) (freshId : String) (now : Int) : TrackedItem :=
  { id := freshId
    name := c.name
    restaurant := "Custom Meal"
    calories := c.calories
    protein := c.protein
    carbs := c.carbs
    fat := c.fat
    fiber := c.fiber
    sugar := c.sugar
    sodium := c.sodium
    serving_size := c.serving_size
    timestamp := now }

/-! ### Mutating operations on today's log -/

/-- The shared body of `addMenuItem` / `addCustomMeal` once the `TrackedItem`
is built: load today's log, push the item, recompute totals, then persist
under `nutrition_log_${this.currentDate}` and update the cache.  If the
persistence write throws (`writeOk = false`) the `catch` rethrows, so the
operation rejects. -/
def addTrackedItem (st : TrackerState) (today : String) (item : TrackedItem)
    (writeOk : Bool) : Except Unit TrackerState :=
  let p := loadTodaysLog st today
  let st1 := p.2
  let items2 := p.1.items ++ [item]
  let log2 : DailyLog := { p.1 with items := items2, totals := calculateTotals items2 }
  if writeOk then
    .ok { st1 with storage := setKey st1.storage (logKey st1.currentDate) log2,
                   dailyLog := some log2 }
  else .error ()

/-- `addMenuItem` (the tracker-state part; the fast-access side effect,
which runs inside the same `try`, is modelled separately on `FastState`). -/
def addMenuItem (st : TrackerState) (today : String) (menuItem : MenuItem)
    (restaurant : String) (freshId : String) (now : Int) (writeOk : Bool) :
    Except Unit TrackerState :=
  addTrackedItem st today (extractNutritionFromMenuItem menuItem restaurant freshId now) writeOk

/-- `addCustomMeal` (tracker-state part, as for `addMenuItem`). -/
def addCustomMeal (st : TrackerState) (today : String) (c : CustomMeal)
    (freshId : String) (now : Int) (writeOk : Bool) : Except Unit TrackerState :=
  addTrackedItem st today (customMealToTrackedItem c freshId now) writeOk

/-- `removeItem(itemId)`: load today's log, keep the items whose id differs,
recompute totals, persist and update the cache; a failed write rejects. -/
def removeItem (st : TrackerState) (today : String) (itemId : String)
    (writeOk : Bool) : Except Unit TrackerState :=
  let p := loadTodaysLog st today
  let st1 := p.2
  let items2 := p.1.items.filter (fun i => i.id != itemId)
  let log2 : DailyLog := { p.1 with items := items2, totals := calculateTotals items2 }
  if writeOk then
    .ok { st1 with storage := setKey st1.storage (logKey st1.currentDate) log2,
                   dailyLog := some log2 }
  else .error ()

/-- `clearTodaysLog`: delete today's persisted record and reset the cache to
an empty log; a failed delete rejects. -/
def clearTodaysLog (st : TrackerState) (today : String) (deleteOk : Bool) :
    Except Unit TrackerState :=
  if deleteOk then
    .ok { st with storage := removeKey st.storage (logKey today),
                  dailyLog := some (emptyLog today) }
  else .error ()

/-! ### Operation sequences (for the totals invariant) -/

/-- One mutating operation of the Daily Log Store, with the identifiers and
instants the source would draw from `generateItemId()` / `Date.now()` made
explicit. -/
inductive LogOp where
  | menu (m : MenuItem) (restaurant freshId : String) (now : Int)
  | custom (c : CustomMeal) (freshId : String) (now : Int)
  | remove (itemId : String)
deriving DecidableEq, Repr

/-- Apply one operation with a completing persistence write. -/
def applyOp (st : TrackerState) (today : String) : LogOp → Except Unit TrackerState
  | .menu m r fid now => addMenuItem st today m r fid now true
  | .custom c fid now => addCustomMeal st today c fid now true
  | .remove itemId => removeItem st today itemId true

/-- Run a sequence of operations, returning the state after each one. -/
def runOps (st : TrackerState) (today : String) : List LogOp → List TrackerState
  | [] => []
  | op :: rest =>
    match applyOp st today op with
    | .ok st2 => st2 :: runOps st2 today rest
    | .error _ => []

/-! ### History queries -/

/-- `key.startsWith('nutrition_log_')`. -/
def isLogKey (k : String) : Bool := "nutrition_log_".data.isPrefixOf k.data

/-- The sort in `getMostRecentLogs` / `getAllHistoricalLogs`:
`(a, b) => new Date(b.date) - new Date(a.date)`, i.e. stable sort by date
descending. -/
def logsSortDateDesc (logs : List DailyLog) : List DailyLog :=
  stableSort (fun a b => !(dateLt a.date b.date)) logs

/-- `getAllHistoricalLogs`, with the detected date passed in: enumerate keys,
keep the `nutrition_log_` keys other than today's, read each, sort by date
descending. -/
def getAllHistoricalLogs (storage : List (String × DailyLog)) (today : String) :
    List DailyLog :=
  let historicalKeys :=
    (storage.map (fun kv => kv.1)).filter (fun k => isLogKey k && k != logKey today)
  let logs := historicalKeys.filterMap (fun k => getKey storage k)
  logsSortDateDesc logs

/-- `getMostRecentLogs(count)`: as above but keeping only logs with at least
one item, and truncating to the requested count after the sort. -/
def getMostRecentLogs (storage : List (String × DailyLog)) (today : String)
    (count : Nat) : List DailyLog :=
  let historicalKeys :=
    (storage.map (fun kv => kv.1)).filter (fun k => isLogKey k && k != logKey today)
  let logs := historicalKeys.filterMap (fun k =>
    match getKey storage k with
    | some lg => if lg.items.length > 0 then some lg else none
    | none => none)
  (logsSortDateDesc logs).take count

/-! ### FastAccessService (quick-access recency index) -/

/-- The `type` discriminator of a `FastAccessItem`. -/
inductive FAType where
  | custom
  | restaurant
deriving DecidableEq, Repr

/-- `FastAccessItem` from the source. -/
structure FastAccessItem where
  id : String
  name : String
  restaurant : String
  calories : Int
  protein : Int
  carbs : Int
  fat : Int
  fiber : Int
  sugar : Int
  sodium : Int
  serving_size : String
  type : FAType
  lastUsed : Int
  useCount : Int
deriving DecidableEq, Repr

/-- The sort comparator used throughout the service:
`(a, b) => b.lastUsed - a.lastUsed`, ties by `b.useCount - a.useCount`.
`faLE a b` holds when the comparator lets `a` come weakly before `b`
(comparator value at most 0). -/
def faLE (a b : FastAccessItem) : Bool :=
  if a.lastUsed = b.lastUsed then decide (b.useCount ≤ a.useCount)
  else decide (b.lastUsed ≤ a.lastUsed)

/-- The stable `Array.prototype.sort` with the comparator above.  A stable
sort under a total preorder has a unique result, so the structurally
recursive `stableSort` used here produces the same list as the engine's
stable merge sort. -/
def sortFA (l : List FastAccessItem) : List FastAccessItem :=
  stableSort faLE l

/-- `maxItems` from the source. -/
def maxItems : Nat := 10

/-- The mutable fields of `FastAccessService`: the in-memory
`fastAccessItems` list and the `fast_access_items` storage value
(`none` when the key was never written). -/
structure FastState where
  mem : List FastAccessItem
  store : Option (List FastAccessItem)
deriving DecidableEq, Repr

/-- `loadFastAccessItems`: if a stored value exists, parse it, sort it and
adopt it as the in-memory list; otherwise leave the list as it is. -/
def loadFastAccessItems (st : FastState) : FastState :=
  match st.store with
  | some l => { st with mem := sortFA l }
  | none => st

/-- The `(name, restaurant)` match used by `findIndex` in
`addOrUpdateFastAccessItem`. -/
def pairMatches (e : FastAccessItem) (item : TrackedItem) : Bool :=
  e.name == item.name && e.restaurant == item.restaurant

/-- The in-place update of an existing entry: bump `lastUsed` to now,
increment `useCount`, refresh the nutrition snapshot from the new item. -/
def refreshEntry (e : FastAccessItem) (item : TrackedItem) (now : Int) :
    FastAccessItem :=
  { e with lastUsed := now
           useCount := e.useCount + 1
           calories := item.calories
           protein := item.protein
           carbs := item.carbs
           fat := item.fat
           fiber := item.fiber
           sugar := item.sugar
           sodium := item.sodium
           serving_size := item.serving_size }

/-- The fresh entry built for a previously unseen `(name, restaurant)` pair. -/
def newFastAccessItem (item : TrackedItem) (now : Int) : FastAccessItem :=
  { id := item.id
    name := item.name
    restaurant := item.restaurant
    calories := item.calories
    protein := item.protein
    carbs := item.carbs
    fat := item.fat
    fiber := item.fiber
    sugar := item.sugar
    sodium := item.sodium
    serving_size := item.serving_size
    type := if item.restaurant = "Custom Meal" then FAType.custom else FAType.restaurant
    lastUsed := now
    useCount := 1 }

/-- `findIndex` on `(name, restaurant)` followed by the in-place update at
that index: `some` of the updated list when a match exists, `none` when the
pair is absent. -/
def updateFirst (item : TrackedItem) (now : Int) :
    List FastAccessItem → Option (List FastAccessItem)
  | [] => none
  | e :: rest =>
    if pairMatches e item then some (refreshEntry e item now :: rest)
    else
      match updateFirst item now rest with
      | some rest2 => some (e :: rest2)
      | none => none

/-- `addOrUpdateFastAccessItem`, with the current instant passed in for
`Date.now()`: lazily load when the in-memory list is empty; update the
matching entry in place or `unshift` a new one; then — in this order, as in
the source — slice the list to its first `maxItems` elements when it exceeds
the cap, sort by the comparator, and persist the result. -/
def addOrUpdateFastAccessItem (st : FastState) (item : TrackedItem) (now : Int) :
    FastState :=
  let st1 := if st.mem.isEmpty then loadFastAccessItems st else st
  let mem1 :=
    match updateFirst item now st1.mem with
    | some l => l
    | none => newFastAccessItem item now :: st1.mem
  let mem2 := if maxItems < mem1.length then mem1.take maxItems else mem1
  let mem3 := sortFA mem2
  { mem := mem3, store := some mem3 }

/-- `removeFastAccessItem(itemId)`: filter the in-memory list (without ever
reading the persisted list first) and persist the filtered result. -/
def removeFastAccessItem (st : FastState) (itemId : String) : FastState :=
  let mem1 := st.mem.filter (fun e => e.id != itemId)
  { mem := mem1, store := some mem1 }

/-- `clearAllFastAccessItems`: reset the list and delete the stored value. -/
def clearAllFastAccessItems (_st : FastState) : FastState :=
  { mem := [], store := none }

/-! ## Lemmas about the stable sort -/

theorem insertSorted_perm (le : α → α → Bool) (x : α) (l : List α) :
    List.Perm (insertSorted le x l) (x :: l) := by
  induction l with
  | nil => simp [insertSorted]
  | cons y ys ih =>
    simp only [insertSorted]
    split
    · exact List.Perm.refl _
    · exact (List.Perm.cons y ih).trans (List.Perm.swap x y ys)

theorem stableSort_perm (le : α → α → Bool) (l : List α) :
    List.Perm (stableSort le l) l := by
  induction l with
  | nil => simp [stableSort]
  | cons x xs ih =>
    exact (insertSorted_perm le x (stableSort le xs)).trans (List.Perm.cons x ih)

theorem pairwise_insertSorted (le : α → α → Bool)
    (htrans : ∀ a b c, le a b = true → le b c = true → le a c = true)
    (htot : ∀ a b, (le a b || le b a) = true)
    {x : α} {l : List α} (h : l.Pairwise (fun a b => le a b = true)) :
    (insertSorted le x l).Pairwise (fun a b => le a b = true) := by
  induction l with
  | nil => simp [insertSorted]
  | cons y ys ih =>
    rcases List.pairwise_cons.mp h with ⟨hy, hys⟩
    simp only [insertSorted]
    split
    next h1 =>
      refine List.pairwise_cons.mpr ⟨?_, h⟩
      intro z hz
      rcases List.mem_cons.mp hz with hz | hz
      · exact hz ▸ h1
      · exact htrans x y z h1 (hy z hz)
    next h1 =>
      have hyx : le y x = true := by
        have h2 := htot x y
        rw [Bool.or_eq_true] at h2
        rcases h2 with h2 | h2
        · exact absurd h2 h1
        · exact h2
      refine List.pairwise_cons.mpr ⟨?_, ih hys⟩
      intro z hz
      rw [(insertSorted_perm le x ys).mem_iff, List.mem_cons] at hz
      rcases hz with hz | hz
      · exact hz ▸ hyx
      · exact hy z hz

theorem pairwise_stableSort (le : α → α → Bool)
    (htrans : ∀ a b c, le a b = true → le b c = true → le a c = true)
    (htot : ∀ a b, (le a b || le b a) = true) (l : List α) :
    (stableSort le l).Pairwise (fun a b => le a b = true) := by
  induction l with
  | nil => simp [stableSort]
  | cons x xs ih => exact pairwise_insertSorted le htrans htot ih

theorem stableSort_of_sorted {le : α → α → Bool} {l : List α}
    (h : l.Pairwise (fun a b => le a b = true)) : stableSort le l = l := by
  induction l with
  | nil => rfl
  | cons x xs ih =>
    rcases List.pairwise_cons.mp h with ⟨hx, hxs⟩
    simp only [stableSort, ih hxs]
    cases xs with
    | nil => rfl
    | cons y ys => simp [insertSorted, hx y (List.mem_cons_self y ys)]

theorem head_of_sorted_max {le : α → α → Bool} {l : List α} {x : α}
    (hsort : l.Pairwise (fun a b => le a b = true))
    (hx : x ∈ l) (hmax : ∀ y ∈ l, y ≠ x → le y x = false) :
    l.head? = some x := by
  cases l with
  | nil => cases hx
  | cons a t =>
    by_cases hax : a = x
    · rw [hax]; rfl
    · exfalso
      have hxt : x ∈ t := by
        rcases List.mem_cons.mp hx with h | h
        · exact absurd h.symm hax
        · exact h
      have h1 : le a x = true := (List.pairwise_cons.mp hsort).1 x hxt
      have h2 : le a x = false := hmax a (List.mem_cons_self a t) hax
      rw [h1] at h2
      cases h2

/-! ## Lemmas about the quick-access comparator -/

theorem faLE_total (a b : FastAccessItem) : (faLE a b || faLE b a) = true := by
  unfold faLE
  by_cases h : a.lastUsed = b.lastUsed
  · rw [if_pos h, if_pos h.symm]
    by_cases h2 : b.useCount ≤ a.useCount
    · rw [decide_eq_true h2, Bool.true_or]
    · have h3 : a.useCount ≤ b.useCount := by omega
      rw [decide_eq_true h3, Bool.or_true]
  · have h2 : ¬ b.lastUsed = a.lastUsed := fun e => h e.symm
    rw [if_neg h, if_neg h2]
    by_cases h3 : b.lastUsed ≤ a.lastUsed
    · rw [decide_eq_true h3, Bool.true_or]
    · have h4 : a.lastUsed ≤ b.lastUsed := by omega
      rw [decide_eq_true h4, Bool.or_true]

theorem faLE_trans (a b c : FastAccessItem) (h1 : faLE a b = true)
    (h2 : faLE b c = true) : faLE a c = true := by
  unfold faLE at h1 h2 ⊢
  by_cases e1 : a.lastUsed = b.lastUsed
  · rw [if_pos e1] at h1
    have p1 : b.useCount ≤ a.useCount := of_decide_eq_true h1
    by_cases e2 : b.lastUsed = c.lastUsed
    · rw [if_pos e2] at h2
      have p2 : c.useCount ≤ b.useCount := of_decide_eq_true h2
      rw [if_pos (e1.trans e2)]
      exact decide_eq_true (le_trans p2 p1)
    · rw [if_neg e2] at h2
      have p2 : c.lastUsed ≤ b.lastUsed := of_decide_eq_true h2
      have e3 : ¬ a.lastUsed = c.lastUsed := by omega
      rw [if_neg e3]
      exact decide_eq_true (by omega)
  · rw [if_neg e1] at h1
    have p1 : b.lastUsed ≤ a.lastUsed := of_decide_eq_true h1
    by_cases e2 : b.lastUsed = c.lastUsed
    · rw [if_pos e2] at h2
      have e3 : ¬ a.lastUsed = c.lastUsed := by omega
      rw [if_neg e3]
      exact decide_eq_true (by omega)
    · rw [if_neg e2] at h2
      have p2 : c.lastUsed ≤ b.lastUsed := of_decide_eq_true h2
      have e3 : ¬ a.lastUsed = c.lastUsed := by omega
      rw [if_neg e3]
      exact decide_eq_true (by omega)

/-! ## Lemmas about the date-string order -/

theorem charListLt_irrefl (l : List Char) : charListLt l l = false := by
  induction l with
  | nil => rfl
  | cons a as ih => simp [charListLt, ih]

theorem charListLt_asymm {l1 l2 : List Char} (h : charListLt l1 l2 = true) :
    charListLt l2 l1 = false := by
  induction l1 generalizing l2 with
  | nil =>
    cases l2 with
    | nil => simp [charListLt] at h
    | cons c cs => simp [charListLt]
  | cons a as ih =>
    cases l2 with
    | nil => simp [charListLt] at h
    | cons b bs =>
      simp only [charListLt] at h ⊢
      by_cases h1 : a.toNat < b.toNat
      · have h2 : ¬ b.toNat < a.toNat := by omega
        simp [h1, h2]
      · by_cases h2 : b.toNat < a.toNat
        · simp [h1, h2] at h
        · simp only [h1, h2, if_false] at h ⊢
          exact ih h

theorem dateLt_irrefl (a : String) : dateLt a a = false :=
  charListLt_irrefl a.data

theorem dateLt_asymm {a b : String} (h : dateLt a b = true) :
    dateLt b a = false :=
  charListLt_asymm h

theorem dateLt_ne {a b : String} (h : dateLt a b = true) : a ≠ b := by
  intro e
  rw [e, dateLt_irrefl] at h
  cases h

/-! ## Lemmas about storage -/

theorem getKey_setKey_self (s : List (String × DailyLog)) (k : String) (v : DailyLog) :
    getKey (setKey s k v) k = some v := by
  induction s with
  | nil => simp [setKey, getKey]
  | cons kv rest ih =>
    obtain ⟨k2, v2⟩ := kv
    simp only [setKey]
    by_cases h : k2 = k
    · rw [if_pos h]
      simp [getKey]
    · rw [if_neg h]
      simp [getKey, h, ih]

theorem getKey_setKey_ne (s : List (String × DailyLog)) {k k2 : String}
    (v : DailyLog) (h : k ≠ k2) : getKey (setKey s k v) k2 = getKey s k2 := by
  induction s with
  | nil => simp [setKey, getKey, h]
  | cons kv rest ih =>
    obtain ⟨k3, v3⟩ := kv
    simp only [setKey]
    by_cases h3 : k3 = k
    · rw [if_pos h3]
      subst h3
      simp [getKey, h]
    · rw [if_neg h3]
      simp [getKey, ih]

theorem getKey_mem {s : List (String × DailyLog)} {k : String} {v : DailyLog}
    (h : getKey s k = some v) : (k, v) ∈ s := by
  induction s with
  | nil => cases h
  | cons kv rest ih =>
    obtain ⟨k2, v2⟩ := kv
    simp only [getKey] at h
    by_cases h2 : k2 = k
    · rw [if_pos h2] at h
      have h4 : v2 = v := Option.some.inj h
      subst h2
      subst h4
      exact List.mem_cons_self _ _
    · rw [if_neg h2] at h
      exact List.mem_cons_of_mem _ (ih h)

theorem string_data_eq {a b : String} (h : a.data = b.data) : a = b := by
  cases a with
  | mk da =>
    cases b with
    | mk db =>
      have h2 : da = db := h
      rw [h2]

theorem logKey_inj {a b : String} (h : logKey a = logKey b) : a = b := by
  unfold logKey at h
  have hd : ("nutrition_log_" ++ a).data = ("nutrition_log_" ++ b).data := by rw [h]
  rw [String.data_append, String.data_append] at hd
  exact string_data_eq (List.append_cancel_left hd)

/-! ## Lemmas about listener invocation -/

theorem forEachIsolated_eq_map (l : List CB) : forEachIsolated l = l.map CB.cid := by
  induction l with
  | nil => rfl
  | cons c rest ih =>
    simp only [forEachIsolated]
    split <;> simp [ih]

/-! ## Lemmas about the quick-access update -/

theorem faLE_false_of_lt {y x : FastAccessItem} (h : y.lastUsed < x.lastUsed) :
    faLE y x = false := by
  unfold faLE
  rw [if_neg (by omega)]
  exact decide_eq_false (by omega)

theorem faLE_true_of_gt {x y : FastAccessItem} (h : y.lastUsed < x.lastUsed) :
    faLE x y = true := by
  unfold faLE
  rw [if_neg (by omega)]
  exact decide_eq_true (by omega)

theorem pairMatches_refreshEntry (e : FastAccessItem) (item : TrackedItem) (now : Int) :
    pairMatches (refreshEntry e item now) item = pairMatches e item := by
  simp [pairMatches, refreshEntry]

theorem updateFirst_eq_some {item : TrackedItem} {now : Int}
    {pre post : List FastAccessItem} {e : FastAccessItem}
    (hpre : ∀ y ∈ pre, pairMatches y item = false)
    (he : pairMatches e item = true) :
    updateFirst item now (pre ++ e :: post) =
      some (pre ++ refreshEntry e item now :: post) := by
  induction pre with
  | nil => simp [updateFirst, he]
  | cons a as ih =>
    have ha : pairMatches a item = false := hpre a (List.mem_cons_self a as)
    have ih2 := ih (fun y hy => hpre y (List.mem_cons_of_mem a hy))
    simp [updateFirst, ha, ih2]

theorem updateFirst_eq_none {item : TrackedItem} {now : Int} {l : List FastAccessItem}
    (h : ∀ y ∈ l, pairMatches y item = false) :
    updateFirst item now l = none := by
  induction l with
  | nil => rfl
  | cons a as ih =>
    have ha : pairMatches a item = false := h a (List.mem_cons_self a as)
    have ih2 := ih (fun y hy => h y (List.mem_cons_of_mem a hy))
    simp [updateFirst, ha, ih2]

/-! ## Lemmas about rollover and persistence -/

theorem save_preserves_other (st : TrackerState) {d d2 : String} (hne : d ≠ d2) :
    getKey (saveCurrentDayToHistory st d) (logKey d2) = getKey st.storage (logKey d2) := by
  unfold saveCurrentDayToHistory
  cases st.dailyLog with
  | none => rfl
  | some lg =>
    show getKey
      (if lg.items.length > 0 then setKey st.storage (logKey d) { lg with date := d }
       else st.storage) (logKey d2) = getKey st.storage (logKey d2)
    by_cases h : lg.items.length > 0
    · rw [if_pos h]
      exact getKey_setKey_ne _ _ (fun e => hne (logKey_inj e))
    · rw [if_neg h]

theorem applyOp_invariant (st : TrackerState) (today : String) (op : LogOp) :
    ∃ st2, applyOp st today op = .ok st2 ∧
      ∃ lg, st2.dailyLog = some lg ∧ lg.totals = calculateTotals lg.items := by
  cases op with
  | menu m r fid now =>
    refine ⟨_, rfl, ?_⟩
    simp [applyOp, addMenuItem, addTrackedItem]
  | custom c fid now =>
    refine ⟨_, rfl, ?_⟩
    simp [applyOp, addCustomMeal, addTrackedItem]
  | remove itemId =>
    refine ⟨_, rfl, ?_⟩
    simp [applyOp, removeItem]

/-! ## Concrete inputs for witnesses and the counterexample -/

/-- A sample custom meal. -/
def oatsMeal : CustomMeal :=
  { name := "Oats", calories := 120, protein := 5, carbs := 20, fat := 3, fiber := 4,
    sugar := 1, sodium := 2, serving_size := "1 bowl" }

/-- A sample tracked item. -/
def sampleItem (idStr nm : String) (cal ts : Int) : TrackedItem :=
  { id := idStr, name := nm, restaurant := "Grill", calories := cal, protein := 1,
    carbs := 2, fat := 3, fiber := 4, sugar := 5, sodium := 6, serving_size := "1 cup",
    timestamp := ts }

/-- A sample quick-access entry. -/
def sampleFA (nm : String) (lu : Int) : FastAccessItem :=
  { id := nm, name := nm, restaurant := "Grill", calories := 1, protein := 0, carbs := 0,
    fat := 0, fiber := 0, sugar := 0, sodium := 0, serving_size := "1 cup",
    type := FAType.restaurant, lastUsed := lu, useCount := 1 }

-- C1 run: two adds and a removal starting from a fresh day.
def c1Start : TrackerState :=
  { currentDate := "2024-03-10", dailyLog := none, storage := [], callbacks := [] }

def c1Ops : List LogOp :=
  [LogOp.custom oatsMeal "id1" 100,
   LogOp.custom { oatsMeal with name := "Rice", calories := 200 } "id2" 101,
   LogOp.remove "id1"]

def c1Trace : List TrackerState := runOps c1Start "2024-03-10" c1Ops

def c1Last : TrackerState := c1Trace.getLastD c1Start

-- C2/C8 state: 2024-03-10 with two items totaling 500 calories.
def c2Log : DailyLog :=
  { date := "2024-03-10",
    items := [sampleItem "a" "Bowl" 300 5, sampleItem "b" "Wrap" 200 6],
    totals := { calories := 500, protein := 2, carbs := 4, fat := 6, fiber := 8,
                sugar := 10, sodium := 12 } }

def c2St : TrackerState :=
  { currentDate := "2024-03-10", dailyLog := some c2Log, storage := [], callbacks := [] }

-- C3 state: one item logged, clock about to jump backward.
def c3Log : DailyLog :=
  { date := "2024-03-10", items := [sampleItem "a" "Bowl" 300 5],
    totals := { calories := 300, protein := 1, carbs := 2, fat := 3, fiber := 4,
                sugar := 5, sodium := 6 } }

def c3St : TrackerState :=
  { currentDate := "2024-03-10", dailyLog := some c3Log,
    storage := [(logKey "2024-03-09", c3Log)], callbacks := [CB.mk 0 false] }

-- C4 inputs: ten sorted entries, then a new pair recorded at an EARLIER
-- instant (backward clock jump between calls).
def c4Entries : List FastAccessItem :=
  [sampleFA "e1" 100, sampleFA "e2" 99, sampleFA "e3" 98, sampleFA "e4" 97,
   sampleFA "e5" 96, sampleFA "e6" 95, sampleFA "e7" 94, sampleFA "e8" 93,
   sampleFA "e9" 92, sampleFA "e10" 91]

def c4St : FastState := { mem := c4Entries, store := some c4Entries }

def c4Item : TrackedItem := sampleItem "fresh" "fresh" 1 50

/-- Modelled from the spec's words (and the claim): the eviction mechanism
asserted there — a full re-sort of the whole collection by
`(lastUsed desc, useCount desc)` followed by taking the first `maxItems`
entries.  Stated for comparison with `addOrUpdateFastAccessItem`, which is
translated from the source. -/
def specResortThenSlice (l : List FastAccessItem) : List FastAccessItem :=
  (sortFA l).take maxItems

def c4NewItem : TrackedItem := sampleItem "brand" "brand" 1 200

-- C5 storage: an archived day plus today's persisted log.
def c5Log9 : DailyLog :=
  { date := "2024-03-09", items := [sampleItem "x" "Soup" 150 1],
    totals := { calories := 150, protein := 1, carbs := 2, fat := 3, fiber := 4,
                sugar := 5, sodium := 6 } }

def c5St : TrackerState :=
  { currentDate := "2024-03-10", dailyLog := some c2Log,
    storage := [(logKey "2024-03-09", c5Log9), (logKey "2024-03-10", c2Log)],
    callbacks := [] }

-- C6 inputs: a cached list containing the re-added pair in the middle, and
-- a concrete run that adds eleven distinct pairs in sequence.
def c6A : FastAccessItem := sampleFA "keepA" 10
def c6B : FastAccessItem := sampleFA "again" 5
def c6C : FastAccessItem := sampleFA "keepC" 3

def c6St : FastState := { mem := [c6A, c6B, c6C], store := some [c6A, c6B, c6C] }

def c6Item : TrackedItem := sampleItem "newid" "again" 42 50

def c6Pairs : List (String × Int) :=
  [("n1", 1), ("n2", 2), ("n3", 3), ("n4", 4), ("n5", 5), ("n6", 6),
   ("n7", 7), ("n8", 8), ("n9", 9), ("n10", 10), ("n11", 11)]

def c6Run : FastState :=
  c6Pairs.foldl
    (fun st p => addOrUpdateFastAccessItem st (sampleItem p.1 p.1 1 p.2) p.2)
    { mem := [], store := none }

-- C8 state: two listeners registered in order; the first one throws.
def c8St : TrackerState :=
  onDateChange (onDateChange c2St { cid := 0, throws := true })
    { cid := 1, throws := false }

-- C10 state: a fresh service instance (cache never loaded) over a
-- non-trivial persisted list.
def c10St : FastState :=
  { mem := [], store := some [sampleFA "kept1" 7, sampleFA "kept2" 8] }

/-! ## Further rollover lemmas -/

theorem checkForDateChange_forward {st : TrackerState} {newDate : String}
    (hfwd : dateLt st.currentDate newDate = true) :
    checkForDateChange st newDate =
      (true,
       { st with currentDate := newDate, dailyLog := none,
                 storage := saveCurrentDayToHistory st st.currentDate },
       forEachIsolated st.callbacks) := by
  have hne : st.currentDate ≠ newDate := dateLt_ne hfwd
  have hnb : ¬ dateLt newDate st.currentDate = true := by
    rw [dateLt_asymm hfwd]
    exact Bool.false_ne_true
  unfold checkForDateChange
  rw [if_neg hne, if_neg hnb]

theorem loadTodaysLog_fresh {st : TrackerState} {today : String}
    (hcd : st.currentDate = today) (hdl : st.dailyLog = none)
    (hkey : getKey st.storage (logKey today) = none) :
    loadTodaysLog st today =
      (emptyLog today, { st with dailyLog := some (emptyLog today) }) := by
  unfold loadTodaysLog
  rw [if_pos hcd]
  show (match st.dailyLog with
    | some lg => if lg.date = today then (lg, st) else loadOrCreate st today
    | none => loadOrCreate st today) = _
  rw [hdl]
  show loadOrCreate st today = _
  unfold loadOrCreate
  rw [hkey]

/-! ## The claims -/

/-- C1: for every sequence of `addMenuItem` / `addCustomMeal` / `removeItem`
operations on the Daily Log Store, after each operation the log's `totals`
field equals the element-wise sum of the log's `items` list, summed in list
(insertion) order of the surviving items — i.e. `totals = calculateTotals items`. -/
theorem c1_totals_invariant (st : TrackerState) (today : String) (ops : List LogOp)
    (st2 : TrackerState) (hmem : st2 ∈ runOps st today ops) :
    ∃ lg, st2.dailyLog = some lg ∧ lg.totals = calculateTotals lg.items := by
  induction ops generalizing st with
  | nil => simp [runOps] at hmem
  | cons op rest ih =>
    obtain ⟨stm, hok, lg, hlg, htot⟩ := applyOp_invariant st today op
    rw [runOps, hok] at hmem
    rcases List.mem_cons.mp hmem with h | h
    · subst h
      exact ⟨lg, hlg, htot⟩
    · exact ih stm h

theorem c1_totals_invariant_witness :
    c1Last ∈ c1Trace ∧
    ∃ lg, c1Last.dailyLog = some lg ∧ lg.totals = calculateTotals lg.items :=
  ⟨by decide, c1_totals_invariant c1Start "2024-03-10" c1Ops c1Last (by decide)⟩

/-- C3: when the detected date is calendar-earlier than `currentDate`
(backward clock jump), the rollover check only resynchronizes `currentDate`:
the cached log and the storage are untouched, no listener is invoked, and
the check reports `false`. -/
theorem c3_backward_clock (st : TrackerState) (newDate : String)
    (hback : dateLt newDate st.currentDate = true) :
    checkForDateChange st newDate = (false, { st with currentDate := newDate }, []) := by
  have hne : st.currentDate ≠ newDate := fun e => dateLt_ne hback e.symm
  unfold checkForDateChange
  rw [if_neg hne, if_pos hback]

theorem c3_backward_clock_witness :
    dateLt "2024-03-09" c3St.currentDate = true ∧
    checkForDateChange c3St "2024-03-09" =
      (false, { c3St with currentDate := "2024-03-09" }, []) :=
  ⟨by decide, c3_backward_clock c3St "2024-03-09" (by decide)⟩

/-- C7: the rollover check is idempotent — a second invocation with the
clock unchanged reports `false` and changes nothing (neither the state nor
the persisted records), and invokes no listener. -/
theorem c7_rollover_idempotent (st : TrackerState) (newDate : String) :
    checkForDateChange (checkForDateChange st newDate).2.1 newDate =
      (false, (checkForDateChange st newDate).2.1, []) := by
  have hcd : (checkForDateChange st newDate).2.1.currentDate = newDate := by
    unfold checkForDateChange
    by_cases h1 : st.currentDate = newDate
    · rw [if_pos h1]
      exact h1
    · rw [if_neg h1]
      by_cases h2 : dateLt newDate st.currentDate = true
      · rw [if_pos h2]
      · rw [if_neg h2]
  generalize (checkForDateChange st newDate).2.1 = st1 at hcd ⊢
  unfold checkForDateChange
  rw [if_pos hcd]

/-- C9: for every mutating operation on today's log (`addMenuItem`,
`addCustomMeal`, `removeItem`, `clearTodaysLog`), if the persistence write
(or delete) throws, the operation rejects — it never signals success when
the write did not complete. -/
theorem c9_write_failure_rejects (st : TrackerState) (today : String)
    (m : MenuItem) (restaurant freshId : String) (now : Int)
    (c : CustomMeal) (freshId2 : String) (now2 : Int) (itemId : String) :
    addMenuItem st today m restaurant freshId now false = .error () ∧
    addCustomMeal st today c freshId2 now2 false = .error () ∧
    removeItem st today itemId false = .error () ∧
    clearTodaysLog st today false = .error () := by
  refine ⟨?_, ?_, ?_, ?_⟩ <;>
    simp [addMenuItem, addCustomMeal, addTrackedItem, removeItem, clearTodaysLog]

/-- C10: `removeFastAccessItem` filters only the in-memory cached list and
persists the result without reading the stored value first; in particular on
an instance whose cache was never loaded (empty `mem`) it overwrites the
persisted value with the empty list, whatever was stored. -/
theorem c10_remove_overwrites_blind (st : FastState) (itemId : String) :
    (removeFastAccessItem st itemId).store =
      some (st.mem.filter (fun e => e.id != itemId)) ∧
    (st.mem = [] → (removeFastAccessItem st itemId).store = some []) := by
  constructor
  · rfl
  · intro h
    simp [removeFastAccessItem, h]

theorem c10_remove_overwrites_blind_witness :
    c10St.mem = [] ∧ c10St.store = some [sampleFA "kept1" 7, sampleFA "kept2" 8] ∧
    (removeFastAccessItem c10St "kept1").store = some [] :=
  ⟨rfl, rfl, (c10_remove_overwrites_blind c10St "kept1").2 rfl⟩

/-- C2: when the detected date is calendar-later than `currentDate`, the
rollover check reports `true`, sets `currentDate` to the new date, clears
the cached log, persists the in-memory log under the old date key whenever
it has at least one item, and — when no log is persisted under the new date
key — the next `loadTodaysLog` returns a fresh empty log with zero totals. -/
theorem c2_forward_rollover (st : TrackerState) (newDate : String)
    (hfwd : dateLt st.currentDate newDate = true)
    (hfresh : getKey st.storage (logKey newDate) = none) :
    (checkForDateChange st newDate).1 = true ∧
    (checkForDateChange st newDate).2.1.currentDate = newDate ∧
    (checkForDateChange st newDate).2.1.dailyLog = none ∧
    (∀ lg, st.dailyLog = some lg → lg.items ≠ [] →
      getKey (checkForDateChange st newDate).2.1.storage (logKey st.currentDate) =
        some { lg with date := st.currentDate }) ∧
    (loadTodaysLog (checkForDateChange st newDate).2.1 newDate).1 = emptyLog newDate := by
  have hne : st.currentDate ≠ newDate := dateLt_ne hfwd
  rw [checkForDateChange_forward hfwd]
  refine ⟨rfl, rfl, rfl, ?_, ?_⟩
  · intro lg hlg hitems
    show getKey (saveCurrentDayToHistory st st.currentDate) (logKey st.currentDate) = _
    unfold saveCurrentDayToHistory
    rw [hlg]
    show getKey
      (if lg.items.length > 0 then
        setKey st.storage (logKey st.currentDate) { lg with date := st.currentDate }
       else st.storage) (logKey st.currentDate) = _
    rw [if_pos (by cases h : lg.items with
      | nil => exact absurd h hitems
      | cons a t => simp [h])]
    exact getKey_setKey_self _ _ _
  · have hkey2 : getKey (saveCurrentDayToHistory st st.currentDate) (logKey newDate) = none := by
      rw [save_preserves_other st hne]
      exact hfresh
    rw [loadTodaysLog_fresh rfl rfl hkey2]

theorem c2_forward_rollover_witness :
    dateLt c2St.currentDate "2024-03-12" = true ∧
    getKey c2St.storage (logKey "2024-03-12") = none ∧
    ((checkForDateChange c2St "2024-03-12").1 = true ∧
     (checkForDateChange c2St "2024-03-12").2.1.currentDate = "2024-03-12" ∧
     (checkForDateChange c2St "2024-03-12").2.1.dailyLog = none ∧
     (∀ lg, c2St.dailyLog = some lg → lg.items ≠ [] →
       getKey (checkForDateChange c2St "2024-03-12").2.1.storage (logKey c2St.currentDate) =
         some { lg with date := c2St.currentDate }) ∧
     (loadTodaysLog (checkForDateChange c2St "2024-03-12").2.1 "2024-03-12").1 =
       emptyLog "2024-03-12") :=
  ⟨by decide, by decide, c2_forward_rollover c2St "2024-03-12" (by decide) (by decide)⟩

/-- C8: during a forward rollover every registered date-change listener is
invoked, in registration order, including throwing ones (exceptions are
isolated per listener), and the rollover itself still completes: the check
reports `true`, `currentDate` advances, the cache is cleared and the archive
write still happens. -/
theorem c8_listener_isolation (st : TrackerState) (newDate : String)
    (hfwd : dateLt st.currentDate newDate = true) :
    (checkForDateChange st newDate).2.2 = st.callbacks.map CB.cid ∧
    (checkForDateChange st newDate).1 = true ∧
    (checkForDateChange st newDate).2.1.currentDate = newDate ∧
    (checkForDateChange st newDate).2.1.dailyLog = none ∧
    (checkForDateChange st newDate).2.1.storage =
      saveCurrentDayToHistory st st.currentDate := by
  rw [checkForDateChange_forward hfwd]
  exact ⟨forEachIsolated_eq_map _, rfl, rfl, rfl, rfl⟩

theorem c8_listener_isolation_witness :
    c8St.callbacks = [CB.mk 0 true, CB.mk 1 false] ∧
    ((checkForDateChange c8St "2024-03-12").2.2 = c8St.callbacks.map CB.cid ∧
     (checkForDateChange c8St "2024-03-12").1 = true ∧
     (checkForDateChange c8St "2024-03-12").2.1.currentDate = "2024-03-12" ∧
     (checkForDateChange c8St "2024-03-12").2.1.dailyLog = none ∧
     (checkForDateChange c8St "2024-03-12").2.1.storage =
       saveCurrentDayToHistory c8St c8St.currentDate) :=
  ⟨by decide, c8_listener_isolation c8St "2024-03-12" (by decide)⟩

/-- C5: neither `getAllHistoricalLogs` nor `getMostRecentLogs n` ever
returns a log whose date equals the store's current date, for any storage
whose daily-log entries are keyed by their own date (which is how every
write in the source keys them) and any state whose `currentDate` agrees
with the detected date. -/
theorem c5_history_excludes_today (st : TrackerState) (today : String) (n : Nat)
    (hkeys : ∀ kv ∈ st.storage, kv.1 = logKey kv.2.date)
    (hsync : st.currentDate = today) :
    (∀ lg ∈ getAllHistoricalLogs st.storage today, lg.date ≠ st.currentDate) ∧
    (∀ lg ∈ getMostRecentLogs st.storage today n, lg.date ≠ st.currentDate) := by
  constructor
  · intro lg hmem hdate
    unfold getAllHistoricalLogs logsSortDateDesc at hmem
    rw [(stableSort_perm _ _).mem_iff] at hmem
    obtain ⟨k, hk, hget⟩ := List.mem_filterMap.mp hmem
    obtain ⟨-, hpred⟩ := List.mem_filter.mp hk
    rw [Bool.and_eq_true] at hpred
    have hkne : k ≠ logKey today := by
      have h2 := hpred.2
      rw [bne_iff_ne] at h2
      exact h2
    have hk2 : k = logKey lg.date := hkeys (k, lg) (getKey_mem hget)
    rw [hdate, hsync] at hk2
    exact hkne hk2
  · intro lg hmem hdate
    unfold getMostRecentLogs logsSortDateDesc at hmem
    have hmem2 := List.mem_of_mem_take hmem
    rw [(stableSort_perm _ _).mem_iff] at hmem2
    obtain ⟨k, hk, hget⟩ := List.mem_filterMap.mp hmem2
    obtain ⟨-, hpred⟩ := List.mem_filter.mp hk
    rw [Bool.and_eq_true] at hpred
    have hkne : k ≠ logKey today := by
      have h2 := hpred.2
      rw [bne_iff_ne] at h2
      exact h2
    have hget2 : getKey st.storage k = some lg := by
      cases hg : getKey st.storage k with
      | none => rw [hg] at hget; cases hget
      | some lg2 =>
        rw [hg] at hget
        have hget3 : (if lg2.items.length > 0 then some lg2 else none) = some lg := hget
        by_cases hl : lg2.items.length > 0
        · rw [if_pos hl] at hget3
          have h9 := Option.some.inj hget3
          rw [h9]
        · rw [if_neg hl] at hget3
          cases hget3
    have hk2 : k = logKey lg.date := hkeys (k, lg) (getKey_mem hget2)
    rw [hdate, hsync] at hk2
    exact hkne hk2

theorem c5_history_excludes_today_witness :
    (∀ kv ∈ c5St.storage, kv.1 = logKey kv.2.date) ∧
    c5St.currentDate = "2024-03-10" ∧
    ((∀ lg ∈ getAllHistoricalLogs c5St.storage "2024-03-10", lg.date ≠ c5St.currentDate) ∧
     (∀ lg ∈ getMostRecentLogs c5St.storage "2024-03-10" 3, lg.date ≠ c5St.currentDate)) :=
  ⟨by decide, by decide,
   c5_history_excludes_today c5St "2024-03-10" 3 (by decide) (by decide)⟩

/-- C4 (counterexample): the claim says overflow eviction is a full re-sort
by `(lastUsed desc, useCount desc)` followed by taking the first ten, "never
simply the tail of the unsorted list".  The source slices BEFORE sorting:
with ten cached entries of `lastUsed` 100..91 and a new pair recorded at
instant 50 (a backward clock jump between calls), the code keeps the new
entry (`lastUsed` 50) and evicts the entry with `lastUsed` 91 — the tail of
the unsorted list, not the lowest-ranked element — so the result differs
from the claimed mechanism. -/
theorem c4_eviction_counterexample :
    (addOrUpdateFastAccessItem c4St c4Item 50).mem ≠
      specResortThenSlice (newFastAccessItem c4Item 50 :: c4St.mem) ∧
    ((addOrUpdateFastAccessItem c4St c4Item 50).mem.all
      (fun y => y.lastUsed != 91)) = true ∧
    ((addOrUpdateFastAccessItem c4St c4Item 50).mem.any
      (fun y => y.lastUsed == 50)) = true ∧
    ((specResortThenSlice (newFastAccessItem c4Item 50 :: c4St.mem)).all
      (fun y => y.lastUsed != 50)) = true :=
  ⟨by decide, by decide, by decide, by decide⟩

/-- C4 (amended): the source truncates to the first ten entries of the list
as it stands BEFORE re-sorting, then sorts.  Whenever the cached list is
sorted by `(lastUsed desc, useCount desc)` and the recorded entry is a new
pair whose `lastUsed` strictly exceeds every cached entry's (a monotone
clock) — the shape of every state the service itself produces — this
coincides with the claimed full re-sort followed by a head-slice. -/
theorem c4_eviction_amended (st : FastState) (item : TrackedItem) (now : Int)
    (hsorted : st.mem.Pairwise (fun a b => faLE a b = true))
    (hnodup : ∀ y ∈ st.mem, pairMatches y item = false)
    (hne : st.mem ≠ [])
    (hlu : ∀ y ∈ st.mem, y.lastUsed < now) :
    (addOrUpdateFastAccessItem st item now).mem =
      specResortThenSlice (newFastAccessItem item now :: st.mem) := by
  have hempty : st.mem.isEmpty = false := by
    cases h : st.mem with
    | nil => exact absurd h hne
    | cons a t => rfl
  have hupd : updateFirst item now st.mem = none := updateFirst_eq_none hnodup
  have hsorted2 :
      (newFastAccessItem item now :: st.mem).Pairwise (fun a b => faLE a b = true) := by
    refine List.pairwise_cons.mpr ⟨?_, hsorted⟩
    intro y hy
    exact faLE_true_of_gt (show y.lastUsed < (newFastAccessItem item now).lastUsed from hlu y hy)
  unfold addOrUpdateFastAccessItem
  rw [hempty]
  simp only [Bool.false_eq_true, if_false, hupd]
  by_cases hlen : maxItems < (newFastAccessItem item now :: st.mem).length
  · rw [if_pos hlen]
    show sortFA ((newFastAccessItem item now :: st.mem).take maxItems) =
      specResortThenSlice (newFastAccessItem item now :: st.mem)
    unfold specResortThenSlice sortFA
    rw [stableSort_of_sorted hsorted2,
        stableSort_of_sorted (hsorted2.sublist (List.take_sublist maxItems _))]
  · rw [if_neg hlen]
    show sortFA (newFastAccessItem item now :: st.mem) =
      specResortThenSlice (newFastAccessItem item now :: st.mem)
    unfold specResortThenSlice sortFA
    rw [stableSort_of_sorted hsorted2]
    rw [List.take_of_length_le (Nat.le_of_not_lt hlen)]

theorem c4_eviction_amended_witness :
    c4St.mem.Pairwise (fun a b => faLE a b = true) ∧
    (∀ y ∈ c4St.mem, pairMatches y c4NewItem = false) ∧
    c4St.mem ≠ [] ∧
    (∀ y ∈ c4St.mem, y.lastUsed < 200) ∧
    (addOrUpdateFastAccessItem c4St c4NewItem 200).mem =
      specResortThenSlice (newFastAccessItem c4NewItem 200 :: c4St.mem) :=
  ⟨by decide, by decide, by decide, by decide,
   c4_eviction_amended c4St c4NewItem 200 (by decide) (by decide) (by decide) (by decide)⟩

/-- C6: quick-access entries are deduplicated by `(name, restaurant)`:
re-recording an existing pair updates that entry in place — `useCount`
incremented by one, `lastUsedAt` bumped to now, nutrition snapshot refreshed
from the new item — creates no duplicate and leaves it first in the
resulting order; and adding eleven distinct pairs in sequence (`c6Run`)
leaves exactly ten entries ordered most-recently-used first. -/
theorem c6_quick_access_dedup (st : FastState) (item : TrackedItem) (now : Int)
    (pre post : List FastAccessItem) (e : FastAccessItem)
    (hmem : st.mem = pre ++ e :: post)
    (hpre : ∀ y ∈ pre, pairMatches y item = false)
    (hpost : ∀ y ∈ post, pairMatches y item = false)
    (he : pairMatches e item = true)
    (hlen : st.mem.length ≤ maxItems)
    (hlu : ∀ y ∈ st.mem, y.lastUsed < now) :
    (addOrUpdateFastAccessItem st item now).mem.head? =
      some (refreshEntry e item now) ∧
    (refreshEntry e item now).useCount = e.useCount + 1 ∧
    (refreshEntry e item now).lastUsed = now ∧
    (refreshEntry e item now).calories = item.calories ∧
    (refreshEntry e item now).protein = item.protein ∧
    (refreshEntry e item now).carbs = item.carbs ∧
    (refreshEntry e item now).fat = item.fat ∧
    (refreshEntry e item now).fiber = item.fiber ∧
    (refreshEntry e item now).sugar = item.sugar ∧
    (refreshEntry e item now).sodium = item.sodium ∧
    (addOrUpdateFastAccessItem st item now).mem.length = st.mem.length ∧
    (addOrUpdateFastAccessItem st item now).mem.countP
      (fun y => pairMatches y item) = 1 ∧
    c6Run.mem.length = maxItems ∧
    c6Run.mem.map (fun y => y.name) =
      ["n11", "n10", "n9", "n8", "n7", "n6", "n5", "n4", "n3", "n2"] ∧
    c6Run.mem.map (fun y => y.lastUsed) = [11, 10, 9, 8, 7, 6, 5, 4, 3, 2] := by
  have hempty : st.mem.isEmpty = false := by
    rw [hmem]
    cases pre <;> rfl
  have hupd : updateFirst item now st.mem =
      some (pre ++ refreshEntry e item now :: post) := by
    rw [hmem]
    exact updateFirst_eq_some hpre he
  have hlen2 : (pre ++ refreshEntry e item now :: post).length = st.mem.length := by
    rw [hmem]
    simp
  have hkey : addOrUpdateFastAccessItem st item now =
      { mem := sortFA (pre ++ refreshEntry e item now :: post),
        store := some (sortFA (pre ++ refreshEntry e item now :: post)) } := by
    unfold addOrUpdateFastAccessItem
    rw [hempty]
    simp only [Bool.false_eq_true, if_false, hupd]
    rw [if_neg (by rw [hlen2]; exact Nat.not_lt.mpr hlen)]
  have hperm := stableSort_perm faLE (pre ++ refreshEntry e item now :: post)
  have hsorted := pairwise_stableSort faLE faLE_trans faLE_total
    (pre ++ refreshEntry e item now :: post)
  refine ⟨?_, rfl, rfl, rfl, rfl, rfl, rfl, rfl, rfl, rfl, ?_, ?_,
    by decide, by decide, by decide⟩
  · rw [hkey]
    show (sortFA (pre ++ refreshEntry e item now :: post)).head? =
      some (refreshEntry e item now)
    apply head_of_sorted_max hsorted
    · exact hperm.mem_iff.mpr (by simp)
    · intro y hy hne2
      have hy2 : y ∈ pre ++ refreshEntry e item now :: post := hperm.subset hy
      rcases List.mem_append.mp hy2 with hyp | hyc
      · refine faLE_false_of_lt (show y.lastUsed < (refreshEntry e item now).lastUsed from ?_)
        refine hlu y ?_
        rw [hmem]
        exact List.mem_append_left _ hyp
      · rcases List.mem_cons.mp hyc with hyr | hyq
        · exact absurd hyr hne2
        · refine faLE_false_of_lt (show y.lastUsed < (refreshEntry e item now).lastUsed from ?_)
          refine hlu y ?_
          rw [hmem]
          exact List.mem_append_right _ (List.mem_cons_of_mem _ hyq)
  · rw [hkey]
    show (stableSort faLE (pre ++ refreshEntry e item now :: post)).length = st.mem.length
    rw [hperm.length_eq, hlen2]
  · rw [hkey]
    show (stableSort faLE (pre ++ refreshEntry e item now :: post)).countP
      (fun y => pairMatches y item) = 1
    rw [hperm.countP_eq]
    have h0 : pre.countP (fun y => pairMatches y item) = 0 :=
      List.countP_eq_zero.mpr (fun y hy => by simp [hpre y hy])
    have h1 : post.countP (fun y => pairMatches y item) = 0 :=
      List.countP_eq_zero.mpr (fun y hy => by simp [hpost y hy])
    have h2 : pairMatches (refreshEntry e item now) item = true := by
      rw [pairMatches_refreshEntry]
      exact he
    simp [List.countP_append, List.countP_cons, h0, h1, h2]

theorem c6_quick_access_dedup_witness :
    c6St.mem = [c6A] ++ c6B :: [c6C] ∧
    pairMatches c6B c6Item = true ∧
    (∀ y ∈ c6St.mem, y.lastUsed < 50) ∧
    ((addOrUpdateFastAccessItem c6St c6Item 50).mem.head? =
       some (refreshEntry c6B c6Item 50) ∧
     (refreshEntry c6B c6Item 50).useCount = c6B.useCount + 1 ∧
     (refreshEntry c6B c6Item 50).lastUsed = 50 ∧
     (refreshEntry c6B c6Item 50).calories = c6Item.calories ∧
     (refreshEntry c6B c6Item 50).protein = c6Item.protein ∧
     (refreshEntry c6B c6Item 50).carbs = c6Item.carbs ∧
     (refreshEntry c6B c6Item 50).fat = c6Item.fat ∧
     (refreshEntry c6B c6Item 50).fiber = c6Item.fiber ∧
     (refreshEntry c6B c6Item 50).sugar = c6Item.sugar ∧
     (refreshEntry c6B c6Item 50).sodium = c6Item.sodium ∧
     (addOrUpdateFastAccessItem c6St c6Item 50).mem.length = c6St.mem.length ∧
     (addOrUpdateFastAccessItem c6St c6Item 50).mem.countP
       (fun y => pairMatches y c6Item) = 1 ∧
     c6Run.mem.length = maxItems ∧
     c6Run.mem.map (fun y => y.name) =
       ["n11", "n10", "n9", "n8", "n7", "n6", "n5", "n4", "n3", "n2"] ∧
     c6Run.mem.map (fun y => y.lastUsed) = [11, 10, 9, 8, 7, 6, 5, 4, 3, 2]) :=
  ⟨rfl, by decide, by decide,
   c6_quick_access_dedup c6St c6Item 50 [c6A] [c6C] c6B rfl (by decide) (by decide)
     (by decide) (by decide) (by decide)⟩

end NutriUni
